import Mathlib

/-!
Verification of the Mandaloop collaborative synthesizer core.

This file gives a shallow embedding of the pitch mapper, the Synth Engine
(Voice registry), and the Sync Protocol reconciliation logic of the
repository (src/services/audioEngine.ts and src/services/commsService.ts),
and proves or refutes the frozen claims about them.

Conventions of the embedding:
  * JavaScript numbers used as scale-degree indices and timestamps are
    modelled as `Int` / `Nat`; frequencies as exact reals (`base * 2 ^ (s/12)`).
  * The JS `%` operator truncates toward zero, which is `Int.tmod`;
    `Math.floor(a / b)` on integers is `Int.fdiv`.
  * An out-of-bounds array read (`scale[degree]` with negative `degree`),
    which in JS yields `undefined` and poisons the arithmetic to `NaN`,
    is modelled by `Option`: `none` is the NaN outcome.
-/

/-- The `SCALES` table of audioEngine.ts: scale name to pitch-class list. -/
def SCALES (name : String) : Option (List Nat) :=
  match name with
  | "pentatonic_major" => some [0, 2, 4, 7, 9]
  | "pentatonic_minor" => some [0, 3, 5, 7, 10]
  | "major" => some [0, 2, 4, 5, 7, 9, 11]
  | "minor" => some [0, 2, 3, 5, 7, 8, 10]
  | "harmonic_minor" => some [0, 2, 3, 5, 7, 8, 11]
  | "dorian" => some [0, 2, 3, 5, 7, 9, 10]
  | "phrygian" => some [0, 1, 3, 5, 7, 8, 10]
  | "lydian" => some [0, 2, 4, 6, 7, 9, 11]
  | "mixolydian" => some [0, 2, 4, 5, 7, 9, 10]
  | "locrian" => some [0, 1, 3, 5, 6, 8, 10]
  | "whole_tone" => some [0, 2, 4, 6, 8, 10]
  | "chromatic" => some [0, 1, 2, 3, 4, 5, 6, 7, 8, 9, 10, 11]
  | "pelog" => some [0, 1, 3, 7, 8]
  | "hirajoshi" => some [0, 2, 3, 7, 8]
  | _ => none

/-- `SCALES[scaleName] || SCALES['pentatonic_major']`: unknown names silently
fall back to the default scale (getFreq, audioEngine.ts line 214). -/
def scaleOf (name : String) : List Nat :=
  (SCALES name).getD [0, 2, 4, 7, 9]

/-- The integer core of `AudioEngine.getFreq` (audioEngine.ts lines 213-219):
`oct = Math.floor(index / scale.length)`, `degree = index % scale.length`
(JS truncated remainder), `semitones = oct * 12 + scale[degree]`.
Returns `none` when `scale[degree]` is an out-of-bounds (`undefined`) read,
which makes the JS arithmetic produce `NaN`. -/
def semitonesJS (scaleName : String) (index : Int) : Option Int :=
  let scale := scaleOf scaleName
  let len : Int := (scale.length : Int)
  let oct : Int := index.fdiv len
  let degree : Int := index.tmod len
  if degree < 0 then none
  else
    match scale.get? degree.toNat with
    | some pc => some (oct * 12 + (pc : Int))
    | none => none

/-- `AudioEngine.getFreq(base, scaleName, index) = base * 2^(semitones/12)`
(audioEngine.ts line 218), with `none` standing for the NaN produced when the
pitch-class lookup is out of bounds. -/
noncomputable def getFreq (base : ℝ) (scaleName : String) (index : Int) : Option ℝ :=
  (semitonesJS scaleName index).map (fun s => base * (2 : ℝ) ^ ((s : ℝ) / 12))

/-- Modelled from the spec (section 4.1), for comparison with `semitonesJS`:
`degree = index mod scaleLength` taken as the non-negative residue
(`Int.emod`), so the pitch-class lookup is always in bounds and the function
is total over all integers. -/
def semitonesSpec (scaleName : String) (index : Int) : Int :=
  let scale := scaleOf scaleName
  let len : Int := (scale.length : Int)
  let oct : Int := index.fdiv len
  let degree : Nat := (index.emod len).toNat
  oct * 12 + ((scale.getD degree 0 : Nat) : Int)

/-- Claim C1: for every integer index the pitch mapper is claimed to be total,
with the degree taken as a non-negative residue. The code instead computes
the degree with the JS truncated `%`, so at index `-1` it reads `scale[-1]`
(undefined) and returns NaN (`none` in this model); the spec's semitone
formula would give `-2` there. The claimed example values hold at
non-negative indices: `getFreq 220 "pentatonic_minor" 0 = 220` and
`getFreq 220 "pentatonic_minor" 5 = 440`. -/
theorem C1_getFreq_negative_index_nan :
    getFreq 220 "pentatonic_minor" (-1) = none
    ∧ semitonesSpec "pentatonic_minor" (-1) = -2
    ∧ getFreq 220 "pentatonic_minor" 0 = some 220
    ∧ getFreq 220 "pentatonic_minor" 5 = some 440 := by
  refine ⟨?_, by decide, ?_, ?_⟩
  · unfold getFreq
    rw [show semitonesJS "pentatonic_minor" (-1) = none from by decide]
    rfl
  · unfold getFreq
    rw [show semitonesJS "pentatonic_minor" 0 = some 0 from by decide]
    have h0 : (((0 : Int) : ℝ) / 12) = (0 : ℝ) := by norm_num
    simp [h0, Real.rpow_zero]
  · unfold getFreq
    rw [show semitonesJS "pentatonic_minor" 5 = some 12 from by decide]
    have h1 : (((12 : Int) : ℝ) / 12) = (1 : ℝ) := by norm_num
    simp [h1, Real.rpow_one]
    norm_num

/-!
Synth Engine (audioEngine.ts lines 171-253).

A `Voice` (lines 30-169) is one sounding note. The audio subgraph
(oscillators, filter, shaper, envelope, reverb send) is irrelevant to the
claims; what matters is the Voice's identity (`vid`, a fresh counter playing
the role of the JS object identity), the data it was constructed from, and
whether `release()` has been invoked on it. `Engine.released` records, in
order, every `release()` call ever made: a voice id appearing there means its
oscillators were told to stop and its disposal was scheduled; appearing twice
would mean a double stop.

The registry `activeVoices : Map<string, Voice>` is modelled as an
insertion-ordered association list with string keys; a JS `Map` never holds
two entries with the same key, and `Map.delete`/`Map.set` are reproduced by
filtering out the key resp. appending a fresh entry after the key is absent.
-/

/-- One registered Voice: its identity and the constructor arguments that
determine its sound. The played frequency is `base * 2^(semis/12)` (the
`getFreq` result passed into `noteOn`), kept here in exact form. -/
structure Voice where
  vid : Nat
  base : ℚ
  semis : Option Int
  effects : List String
deriving DecidableEq

/-- The mutable state of `AudioEngine`: whether `init()` has built the master
bus (`this.ctx` non-null), the `activeVoices` registry, a fresh-identity
counter for constructed Voices, and the log of `release()` calls. -/
structure Engine where
  initialized : Bool
  voices : List (String × Voice)
  nextId : Nat
  released : List Nat
deriving DecidableEq

/-- The engine before `init()`: no context, empty registry. -/
def Engine.empty : Engine :=
  { initialized := false, voices := [], nextId := 0, released := [] }

/-- `AudioEngine.init` (lines 179-194): a no-op if already initialized. -/
def Engine.init (e : Engine) : Engine :=
  if e.initialized then e else { e with initialized := true }

/-- The JS `String.prototype.startsWith`, as a kernel-computable test on the
character lists of the strings. -/
def jsStartsWith (s pre : String) : Bool :=
  pre.data.isPrefixOf s.data

/-- The registry key `` `${userId}_${noteIndex}` `` (line 226). -/
def voiceKey (userId : String) (noteIndex : Int) : String :=
  userId ++ "_" ++ toString noteIndex

/-- `Map.get` on the association-list model. -/
def regFind : List (String × Voice) → String → Option Voice
  | [], _ => none
  | p :: rest, k => if p.1 = k then some p.2 else regFind rest k

/-- `Map.delete` on the association-list model. -/
def regErase (l : List (String × Voice)) (k : String) : List (String × Voice) :=
  l.filter (fun p => p.1 ≠ k)

/-- `AudioEngine.noteOff` (lines 235-242): if a Voice is registered for the
key, call `release()` on it and delete the registry entry; otherwise do
nothing. -/
def Engine.noteOff (e : Engine) (userId : String) (noteIndex : Int) : Engine :=
  let id := voiceKey userId noteIndex
  match regFind e.voices id with
  | some v => { e with voices := regErase e.voices id, released := e.released ++ [v.vid] }
  | none => e

/-- `AudioEngine.noteOn` (lines 221-233): ensure the context exists
(`init()`; in this model initialization always succeeds, as it does whenever
the host provides an AudioContext), release-and-replace any Voice already
registered for the key, then construct a new Voice and register it. -/
def Engine.noteOn (e : Engine) (userId : String) (noteIndex : Int)
    (base : ℚ) (semis : Option Int) (activeEffects : List String) : Engine :=
  let e1 := e.init
  let id := voiceKey userId noteIndex
  let e2 := if (regFind e1.voices id).isSome then e1.noteOff userId noteIndex else e1
  { e2 with
    voices := e2.voices ++ [(id, { vid := e2.nextId, base := base, semis := semis, effects := activeEffects })],
    nextId := e2.nextId + 1 }

/-- `AudioEngine.updateUserEffects` (lines 244-252): a no-op before `init()`;
otherwise pushes the effect set to every registered Voice whose key starts
with `` `${userId}_` ``. -/
def Engine.updateUserEffects (e : Engine) (userId : String) (activeEffects : List String) : Engine :=
  if e.initialized then
    { e with voices := e.voices.map (fun p =>
        if jsStartsWith p.1 (userId ++ "_") then (p.1, { p.2 with effects := activeEffects }) else p) }
  else e

/-- One Synth Engine operation, for quantifying over call sequences. -/
inductive EngOp where
  | initOp : EngOp
  | onOp (userId : String) (noteIndex : Int) (base : ℚ) (semis : Option Int) (fx : List String) : EngOp
  | offOp (userId : String) (noteIndex : Int) : EngOp
  | fxOp (userId : String) (fxs : List String) : EngOp
deriving DecidableEq

/-- Apply one operation to the engine. -/
def EngOp.apply (op : EngOp) (e : Engine) : Engine :=
  match op with
  | .initOp => e.init
  | .onOp userId noteIndex base semis fxl => e.noteOn userId noteIndex base semis fxl
  | .offOp userId noteIndex => e.noteOff userId noteIndex
  | .fxOp userId fxs => e.updateUserEffects userId fxs

/-- Run a finite sequence of Synth Engine operations. -/
def runOps (e : Engine) (ops : List EngOp) : Engine :=
  ops.foldl (fun acc op => op.apply acc) e

/-- The engine invariant: release calls are pairwise distinct, every
registered Voice is live (not yet released) with an identity below the
fresh counter, registered identities are pairwise distinct, and every
released identity is below the fresh counter. -/
def EngineWF (e : Engine) : Prop :=
  e.released.Nodup
  ∧ (∀ p ∈ e.voices, p.2.vid < e.nextId ∧ p.2.vid ∉ e.released)
  ∧ (e.voices.map (fun p => p.2.vid)).Nodup
  ∧ (∀ v ∈ e.released, v < e.nextId)

instance (e : Engine) : Decidable (EngineWF e) := by
  unfold EngineWF
  infer_instance

/-! Registry lemmas. -/

theorem regFind_erase_self (l : List (String × Voice)) (k : String) :
    regFind (regErase l k) k = none := by
  induction l with
  | nil => rfl
  | cons p rest ih =>
      by_cases h : p.1 = k
      · simp [regErase, List.filter, h] at ih ⊢
        exact ih
      · simp [regErase, List.filter, h] at ih ⊢
        rw [regFind]
        simp [h]
        exact ih

theorem regFind_erase_other (l : List (String × Voice)) (k k' : String) (h : k ≠ k') :
    regFind (regErase l k') k = regFind l k := by
  induction l with
  | nil => rfl
  | cons p rest ih =>
      by_cases hp : p.1 = k'
      · simp [regErase, List.filter, hp] at ih ⊢
        rw [regFind]
        have : ¬ p.1 = k := by
          rw [hp]
          exact fun hc => h hc.symm
        simp [this]
        exact ih
      · simp [regErase, List.filter, hp] at ih ⊢
        rw [regFind, regFind]
        by_cases hk : p.1 = k
        · simp [hk]
        · simp [hk]
          exact ih

theorem regFind_append (l l' : List (String × Voice)) (k : String) :
    regFind (l ++ l') k = match regFind l k with
      | some v => some v
      | none => regFind l' k := by
  induction l with
  | nil => simp [regFind]
  | cons p rest ih =>
      by_cases h : p.1 = k
      · simp [regFind, h]
      · simp [regFind, h]
        exact ih

theorem regFind_mem (l : List (String × Voice)) (k : String) (v : Voice)
    (h : regFind l k = some v) : (k, v) ∈ l := by
  induction l with
  | nil => simp [regFind] at h
  | cons p rest ih =>
      rw [regFind] at h
      by_cases hp : p.1 = k
      · simp [hp] at h
        have : (k, v) = p := by
          cases p with
          | mk a b =>
              simp at hp h
              simp [hp, h]
        rw [this]
        exact List.mem_cons_self p rest
      · simp [hp] at h
        right
        exact ih h

theorem regErase_sub (l : List (String × Voice)) (k : String) (p : String × Voice)
    (h : p ∈ regErase l k) : p ∈ l ∧ p.1 ≠ k := by
  unfold regErase at h
  have := List.of_mem_filter h
  refine ⟨List.mem_of_mem_filter h, by simpa using this⟩

/-! Unfolding lemmas for the engine operations. -/

theorem init_voices (e : Engine) : e.init.voices = e.voices := by
  by_cases h : e.initialized <;> simp [Engine.init, h]

theorem init_nextId (e : Engine) : e.init.nextId = e.nextId := by
  by_cases h : e.initialized <;> simp [Engine.init, h]

theorem init_released (e : Engine) : e.init.released = e.released := by
  by_cases h : e.initialized <;> simp [Engine.init, h]

theorem init_initialized (e : Engine) : e.init.initialized = true := by
  by_cases h : e.initialized <;> simp [Engine.init, h]

theorem noteOff_of_find (e : Engine) (userId : String) (noteIndex : Int) (v : Voice)
    (h : regFind e.voices (voiceKey userId noteIndex) = some v) :
    e.noteOff userId noteIndex
      = { e with voices := regErase e.voices (voiceKey userId noteIndex),
                 released := e.released ++ [v.vid] } := by
  simp [Engine.noteOff, h]

theorem noteOff_of_none (e : Engine) (userId : String) (noteIndex : Int)
    (h : regFind e.voices (voiceKey userId noteIndex) = none) :
    e.noteOff userId noteIndex = e := by
  simp [Engine.noteOff, h]

theorem noteOn_of_find (e : Engine) (userId : String) (noteIndex : Int)
    (base : ℚ) (semis : Option Int) (fx : List String) (v : Voice)
    (h : regFind e.voices (voiceKey userId noteIndex) = some v) :
    e.noteOn userId noteIndex base semis fx
      = { initialized := true,
          voices := regErase e.voices (voiceKey userId noteIndex)
            ++ [(voiceKey userId noteIndex,
                 { vid := e.nextId, base := base, semis := semis, effects := fx })],
          nextId := e.nextId + 1,
          released := e.released ++ [v.vid] } := by
  have h1 : regFind e.init.voices (voiceKey userId noteIndex) = some v := by
    rw [init_voices]; exact h
  have h2 : e.init.noteOff userId noteIndex
      = { e.init with voices := regErase e.init.voices (voiceKey userId noteIndex),
                      released := e.init.released ++ [v.vid] } :=
    noteOff_of_find _ _ _ _ h1
  simp only [Engine.noteOn, h1, Option.isSome_some, if_true, h2]
  simp [init_voices, init_nextId, init_released, init_initialized]

theorem noteOn_of_none (e : Engine) (userId : String) (noteIndex : Int)
    (base : ℚ) (semis : Option Int) (fx : List String)
    (h : regFind e.voices (voiceKey userId noteIndex) = none) :
    e.noteOn userId noteIndex base semis fx
      = { initialized := true,
          voices := e.voices
            ++ [(voiceKey userId noteIndex,
                 { vid := e.nextId, base := base, semis := semis, effects := fx })],
          nextId := e.nextId + 1,
          released := e.released } := by
  have h1 : regFind e.init.voices (voiceKey userId noteIndex) = none := by
    rw [init_voices]; exact h
  simp only [Engine.noteOn, h1, Option.isSome_none, Bool.false_eq_true, if_false]
  simp [init_voices, init_nextId, init_released, init_initialized]

/-- Claim C3: `noteOn` on a key that already has a registered Voice first
releases the existing Voice (so it reaches the Disposed state) and then
registers a freshly constructed Voice, leaving exactly one registry entry
for the key, which refers to the new Voice (distinct from the old one). -/
theorem C3_noteOn_release_and_replace
    (e : Engine) (userId : String) (noteIndex : Int)
    (base : ℚ) (semis : Option Int) (fx : List String) (v : Voice)
    (hwf : EngineWF e)
    (hv : regFind e.voices (voiceKey userId noteIndex) = some v) :
    ((e.noteOn userId noteIndex base semis fx).voices.countP
        (fun p => p.1 = voiceKey userId noteIndex)) = 1
    ∧ regFind (e.noteOn userId noteIndex base semis fx).voices (voiceKey userId noteIndex)
        = some { vid := e.nextId, base := base, semis := semis, effects := fx }
    ∧ v.vid ∈ (e.noteOn userId noteIndex base semis fx).released
    ∧ ({ vid := e.nextId, base := base, semis := semis, effects := fx } : Voice) ≠ v := by
  rw [noteOn_of_find e userId noteIndex base semis fx v hv]
  refine ⟨?_, ?_, ?_, ?_⟩
  · rw [List.countP_append]
    have hz : (regErase e.voices (voiceKey userId noteIndex)).countP
        (fun p => p.1 = voiceKey userId noteIndex) = 0 := by
      rw [List.countP_eq_zero]
      intro p hp
      have := (regErase_sub _ _ _ hp).2
      simpa using this
    simp [hz]
  · rw [regFind_append, regFind_erase_self]
    simp [regFind]
  · simp
  · intro hc
    have hmem : (voiceKey userId noteIndex, v) ∈ e.voices := regFind_mem _ _ _ hv
    have hlt : v.vid < e.nextId := (hwf.2.1 _ hmem).1
    have : v.vid = e.nextId := by rw [← hc]
    omega

/-- Claim C7: `noteOff` releases and deregisters the Voice when present and
is a no-op when absent; after the first call the registry no longer contains
the key, and a second identical call changes nothing (never throws, never
corrupts the registry). -/
theorem C7_noteOff_idempotent (e : Engine) (userId : String) (noteIndex : Int) :
    regFind (e.noteOff userId noteIndex).voices (voiceKey userId noteIndex) = none
    ∧ (e.noteOff userId noteIndex).noteOff userId noteIndex = e.noteOff userId noteIndex
    ∧ (∀ v, regFind e.voices (voiceKey userId noteIndex) = some v →
        v.vid ∈ (e.noteOff userId noteIndex).released) := by
  cases h : regFind e.voices (voiceKey userId noteIndex) with
  | none =>
      rw [noteOff_of_none e userId noteIndex h]
      exact ⟨h, noteOff_of_none e userId noteIndex h, fun v hv => by cases hv⟩
  | some v =>
      rw [noteOff_of_find e userId noteIndex v h]
      refine ⟨regFind_erase_self _ _, ?_, ?_⟩
      · apply noteOff_of_none
        exact regFind_erase_self _ _
      · intro w hw
        cases hw
        simp

/-- A concrete engine holding one Voice for carol's degree 1. -/
def engineC7 : Engine := Engine.empty.noteOn "carol" 1 150 (some 0) []

/-- Witness for C7 at a concrete engine: the key is gone after the first
`noteOff`, the second call is the identity, and the Voice was released. -/
theorem C7_witness :
    regFind (engineC7.noteOff "carol" 1).voices (voiceKey "carol" 1) = none
    ∧ (engineC7.noteOff "carol" 1).noteOff "carol" 1 = engineC7.noteOff "carol" 1
    ∧ (⟨0, 150, some 0, []⟩ : Voice).vid ∈ (engineC7.noteOff "carol" 1).released := by
  have h := C7_noteOff_idempotent engineC7 "carol" 1
  exact ⟨h.1, h.2.1, h.2.2 _ (by decide)⟩

/-! Preservation of the engine invariant. -/

theorem EngineWF_empty : EngineWF Engine.empty := by
  refine ⟨List.nodup_nil, ?_, ?_, ?_⟩ <;> simp [Engine.empty]

theorem EngineWF_init (e : Engine) (h : EngineWF e) : EngineWF e.init := by
  by_cases hi : e.initialized <;> simpa [Engine.init, hi] using h

theorem EngineWF_noteOff (e : Engine) (userId : String) (noteIndex : Int)
    (h : EngineWF e) : EngineWF (e.noteOff userId noteIndex) := by
  obtain ⟨h1, h2, h3, h4⟩ := h
  cases hf : regFind e.voices (voiceKey userId noteIndex) with
  | none => rw [noteOff_of_none e userId noteIndex hf]; exact ⟨h1, h2, h3, h4⟩
  | some v =>
      rw [noteOff_of_find e userId noteIndex v hf]
      have hmem : (voiceKey userId noteIndex, v) ∈ e.voices := regFind_mem _ _ _ hf
      have hvv : v.vid ∉ e.released := (h2 _ hmem).2
      refine ⟨?_, ?_, ?_, ?_⟩
      · simp [List.nodup_append, h1, hvv]
      · intro p hp
        obtain ⟨hpmem, hpk⟩ := regErase_sub _ _ _ hp
        refine ⟨(h2 _ hpmem).1, ?_⟩
        simp only [List.mem_append, List.mem_singleton]
        rintro (hc | hc)
        · exact (h2 _ hpmem).2 hc
        · have := List.inj_on_of_nodup_map h3 hpmem hmem (by simpa using hc)
          rw [this] at hpk
          exact hpk rfl
      · have hsub : List.Sublist (regErase e.voices (voiceKey userId noteIndex)) e.voices :=
          List.filter_sublist _
        exact h3.sublist (hsub.map _)
      · intro w hw
        simp only [List.mem_append, List.mem_singleton] at hw
        rcases hw with hw | hw
        · exact h4 _ hw
        · rw [hw]; exact (h2 _ hmem).1

theorem EngineWF_extend (f : Engine) (b : Bool) (k : String)
    (base : ℚ) (semis : Option Int) (fx : List String) (h : EngineWF f) :
    EngineWF { initialized := b,
               voices := f.voices ++ [(k, { vid := f.nextId, base := base, semis := semis, effects := fx })],
               nextId := f.nextId + 1,
               released := f.released } := by
  obtain ⟨h1, h2, h3, h4⟩ := h
  refine ⟨h1, ?_, ?_, ?_⟩
  · intro p hp
    simp only [List.mem_append, List.mem_singleton] at hp
    rcases hp with hp | hp
    · refine ⟨Nat.lt_succ_of_lt (h2 _ hp).1, (h2 _ hp).2⟩
    · rw [hp]
      refine ⟨Nat.lt_succ_self _, ?_⟩
      intro hc
      have hlt := h4 _ hc
      simp at hlt
  · rw [List.map_append]
    simp only [List.map_cons, List.map_nil]
    rw [List.nodup_append]
    refine ⟨h3, List.nodup_singleton _, ?_⟩
    intro a ha
    simp only [List.mem_map] at ha
    obtain ⟨p, hp, hpa⟩ := ha
    have := (h2 _ hp).1
    simp only [List.mem_singleton]
    omega
  · intro w hw
    exact Nat.lt_succ_of_lt (h4 _ hw)

theorem EngineWF_noteOn (e : Engine) (userId : String) (noteIndex : Int)
    (base : ℚ) (semis : Option Int) (fx : List String)
    (h : EngineWF e) : EngineWF (e.noteOn userId noteIndex base semis fx) := by
  cases hf : regFind e.voices (voiceKey userId noteIndex) with
  | none =>
      rw [noteOn_of_none e userId noteIndex base semis fx hf]
      exact EngineWF_extend e true _ base semis fx h
  | some v =>
      rw [noteOn_of_find e userId noteIndex base semis fx v hf]
      have hoff : EngineWF (e.noteOff userId noteIndex) :=
        EngineWF_noteOff e userId noteIndex h
      rw [noteOff_of_find e userId noteIndex v hf] at hoff
      exact EngineWF_extend
        { e with voices := regErase e.voices (voiceKey userId noteIndex),
                 released := e.released ++ [v.vid] } true _ base semis fx hoff

theorem EngineWF_updateUserEffects (e : Engine) (userId : String) (fx : List String)
    (h : EngineWF e) : EngineWF (e.updateUserEffects userId fx) := by
  obtain ⟨h1, h2, h3, h4⟩ := h
  unfold Engine.updateUserEffects
  by_cases hi : e.initialized
  · simp only [hi, if_true]
    refine ⟨h1, ?_, ?_, h4⟩
    · intro p hp
      simp only [List.mem_map] at hp
      obtain ⟨q, hq, hqp⟩ := hp
      have hvid : p.2.vid = q.2.vid := by
        rw [← hqp]
        by_cases hs : jsStartsWith q.1 (userId ++ "_") <;> simp [hs]
      rw [hvid]
      exact h2 _ hq
    · have hmm : (e.voices.map (fun p =>
          if jsStartsWith p.1 (userId ++ "_") then (p.1, { p.2 with effects := fx }) else p)).map
            (fun p => p.2.vid) = e.voices.map (fun p => p.2.vid) := by
        rw [List.map_map]
        apply List.map_congr_left
        intro p hp
        by_cases hs : jsStartsWith p.1 (userId ++ "_") <;> simp [hs]
      rw [hmm]
      exact h3
  · simp only [hi, if_false]
    exact ⟨h1, h2, h3, h4⟩

theorem EngineWF_runOps (ops : List EngOp) (e : Engine) (h : EngineWF e) :
    EngineWF (runOps e ops) := by
  induction ops generalizing e with
  | nil => exact h
  | cons op rest ih =>
      have hstep : EngineWF (op.apply e) := by
        cases op with
        | initOp => exact EngineWF_init e h
        | onOp userId noteIndex base semis fxl =>
            exact EngineWF_noteOn e userId noteIndex base semis fxl h
        | offOp userId noteIndex => exact EngineWF_noteOff e userId noteIndex h
        | fxOp userId fxs => exact EngineWF_updateUserEffects e userId fxs h
      exact ih (op.apply e) hstep

/-- Claim C8: over every finite sequence of Synth Engine operations starting
from the fresh engine, no Voice ever has `release()` invoked twice — the log
of release calls (each of which schedules the oscillator stops and the
one-shot disposal of the subgraph exactly once) contains each constructed
Voice at most once. -/
theorem C8_release_invoked_at_most_once (ops : List EngOp) :
    ((runOps Engine.empty ops).released).Nodup :=
  (EngineWF_runOps ops Engine.empty EngineWF_empty).1

/-- A concrete engine holding one Voice for degree 2 of participant alice. -/
def engineAlice : Engine := Engine.empty.noteOn "alice" 2 150 (some 5) []

/-- Witness for C3: retriggering alice's degree 2 releases the old Voice
(id 0) and leaves exactly one registry entry, holding the new Voice (id 1). -/
theorem C3_witness :
    ((engineAlice.noteOn "alice" 2 150 (some 5) ["vibrato"]).voices.countP
        (fun p => p.1 = voiceKey "alice" 2)) = 1
    ∧ regFind (engineAlice.noteOn "alice" 2 150 (some 5) ["vibrato"]).voices (voiceKey "alice" 2)
        = some { vid := engineAlice.nextId, base := 150, semis := some 5, effects := ["vibrato"] }
    ∧ (⟨0, 150, some 5, []⟩ : Voice).vid ∈ (engineAlice.noteOn "alice" 2 150 (some 5) ["vibrato"]).released
    ∧ ({ vid := engineAlice.nextId, base := 150, semis := some 5, effects := ["vibrato"] } : Voice)
        ≠ (⟨0, 150, some 5, []⟩ : Voice) :=
  C3_noteOn_release_and_replace engineAlice "alice" 2 150 (some 5) ["vibrato"]
    ⟨0, 150, some 5, []⟩ (by decide) (by decide)

/-- Claim C9: `updateUserEffects userId fx` touches exactly the registered
Voices whose registry key starts with `userId ++ "_"`: keys and order are
preserved, entries whose key does not match are left unchanged, a call for a
participant with no registered Voices changes nothing, matched entries get
the new effect set, and — as the prefix test implies — a voice of a
participant whose id extends `userId` with an underscore-led suffix (such as
`"a_1"` for `userId = "a"`) is matched as well. -/
theorem C9_updateUserEffects_frame (e : Engine) (userId : String) (fx : List String)
    (hi : e.initialized = true) :
    ((e.updateUserEffects userId fx).voices.map Prod.fst = e.voices.map Prod.fst)
    ∧ (∀ p ∈ e.voices, jsStartsWith p.1 (userId ++ "_") = false →
         p ∈ (e.updateUserEffects userId fx).voices)
    ∧ (∀ p ∈ (e.updateUserEffects userId fx).voices, jsStartsWith p.1 (userId ++ "_") = false →
         p ∈ e.voices)
    ∧ ((e.updateUserEffects userId fx).released = e.released
        ∧ (e.updateUserEffects userId fx).nextId = e.nextId
        ∧ (e.updateUserEffects userId fx).initialized = e.initialized)
    ∧ ((∀ p ∈ e.voices, jsStartsWith p.1 (userId ++ "_") = false) →
         e.updateUserEffects userId fx = e)
    ∧ (∀ p ∈ e.voices, jsStartsWith p.1 (userId ++ "_") = true →
         (p.1, { p.2 with effects := fx }) ∈ (e.updateUserEffects userId fx).voices)
    ∧ jsStartsWith (voiceKey "a_1" 2) ("a" ++ "_") = true := by
  have hunfold : e.updateUserEffects userId fx
      = { e with voices := e.voices.map (fun p =>
            if jsStartsWith p.1 (userId ++ "_") then (p.1, { p.2 with effects := fx }) else p) } := by
    simp [Engine.updateUserEffects, hi]
  rw [hunfold]
  refine ⟨?_, ?_, ?_, ⟨rfl, rfl, rfl⟩, ?_, ?_, by decide⟩
  · rw [List.map_map]
    apply List.map_congr_left
    intro p hp
    by_cases hs : jsStartsWith p.1 (userId ++ "_") <;> simp [hs]
  · intro p hp hs
    simp only [List.mem_map]
    exact ⟨p, hp, by simp [hs]⟩
  · intro p hp hs
    simp only [List.mem_map] at hp
    obtain ⟨q, hq, hqp⟩ := hp
    by_cases hqs : jsStartsWith q.1 (userId ++ "_")
    · rw [← hqp] at hs
      simp [hqs] at hs
    · simp only [hqs, if_neg, Bool.false_eq_true, if_false] at hqp
      rw [← hqp]
      exact hq
  · intro hall
    have : e.voices.map (fun p =>
        if jsStartsWith p.1 (userId ++ "_") then (p.1, { p.2 with effects := fx }) else p)
        = e.voices := by
      have := List.map_congr_left (l := e.voices)
        (f := fun p => if jsStartsWith p.1 (userId ++ "_") then (p.1, { p.2 with effects := fx }) else p)
        (g := id) (fun p hp => by simp [hall p hp])
      simpa using this
    rw [this]
  · intro p hp hs
    simp only [List.mem_map]
    exact ⟨p, hp, by simp [hs]⟩

/-- A concrete engine with Voices for participants `a_1` and `b`. -/
def engineC9 : Engine :=
  (Engine.empty.noteOn "a_1" 2 150 (some 0) []).noteOn "b" 3 150 (some 0) []

/-- Witness for C9 at a concrete engine: keys preserved and the unmatched
participant's entries untouched. -/
theorem C9_witness :
    ((engineC9.updateUserEffects "a" ["distort"]).voices.map Prod.fst
        = engineC9.voices.map Prod.fst)
    ∧ (∀ p ∈ (engineC9.updateUserEffects "a" ["distort"]).voices,
         jsStartsWith p.1 ("a" ++ "_") = false → p ∈ engineC9.voices) := by
  have h := C9_updateUserEffects_frame engineC9 "a" ["distort"] (by decide)
  exact ⟨h.1, h.2.2.1⟩

/-!
Sync Protocol and Session State (commsService.ts and the App message
handling in `handleRemoteMessage`).

`UserState` / `Partial<UserState>` come from types.ts. The payload of a
`SignalMessage` is an untyped blob in the source, discriminated by the
message type; here it is a sum over the shapes actually sent. Timestamps are
`Date.now()` values (`Nat`); a JS falsy check on a number is `t ≠ 0` for a
present value.
-/

/-- `UserState` (types.ts). -/
structure RUser where
  id : String
  name : String
  colorIndex : Nat
  activeNotes : List Int
  activeEffects : List String
deriving DecidableEq

/-- `Partial<UserState>`: a presence record possibly stripped of fields. -/
structure RawUser where
  id : Option String
  name : Option String
  colorIndex : Option Nat
  activeNotes : Option (List Int)
  activeEffects : Option (List String)
deriving DecidableEq

/-- JS `x || dflt` for an optional string: absent or empty is replaced. -/
def strOr (s : Option String) (dflt : String) : String :=
  match s with
  | some v => if v = "" then dflt else v
  | none => dflt

/-- The sanitization applied to inbound user records (commsService.ts lines
63-69 and the JOIN case, lines 217-224): defaults for any missing field.
`colorIndex || 0` maps the falsy 0 to the default 0, so `getD` agrees. -/
def sanitizeUser (r : RawUser) : RUser :=
  { id := strOr r.id "unknown",
    name := strOr r.name "Anonymous",
    colorIndex := r.colorIndex.getD 0,
    activeNotes := r.activeNotes.getD [],
    activeEffects := r.activeEffects.getD [] }

/-- `NotePayload` (types.ts): velocity is held in exact form. -/
structure NotePayload where
  noteIndex : Int
  velocity : ℚ
  timestamp : Nat
  duration : Nat
deriving DecidableEq

/-- The `MessageType` enumeration. -/
inductive MsgType where
  | JOIN | LEAVE | NOTE_ON | NOTE_OFF | EFFECT_CHANGE | SYNC_THEME | SYNC_SCALE
deriving DecidableEq

/-- The parts of a `Theme` that the modelled state consumes: the base
frequency and the scale name (colors, synth parameters and the mood text do
not feed into any claim-relevant state). -/
structure Theme where
  baseFreq : ℚ
  scale : String
deriving DecidableEq

/-- The payload blob, by message kind. -/
inductive Payload where
  | note (p : NotePayload)
  | noteIdx (noteIndex : Int)
  | fx (effect : String) (active : Bool)
  | userP (u : RawUser)
  | themeP (t : Theme)
  | scaleP (s : String)
  | nullP
deriving DecidableEq

/-- `SignalMessage` (types.ts): the protocol envelope. -/
structure SignalMessage where
  type : MsgType
  roomId : String
  senderId : String
  payload : Payload
  timestamp : Option Nat
deriving DecidableEq

/-- The App-side replicated session state touched by inbound messages:
remote participants, the synthesizer, the current theme, and the scale
override (`overrideScale`; the empty string is the JS falsy "no override"). -/
structure SessionState where
  remoteUsers : List RUser
  engine : Engine
  theme : Theme
  overrideScale : String
deriving DecidableEq

/-- `overrideScale || theme.scale`. -/
def effectiveScale (st : SessionState) : String :=
  if st.overrideScale = "" then st.theme.scale else st.overrideScale

/-- The per-user effect-set update of the EFFECT_CHANGE case
(commsService.ts lines 273-276): `active` appends unconditionally, inactive
filters out every occurrence. -/
def applyEffect (effect : String) (active : Bool) (fx : List String) : List String :=
  if active then fx ++ [effect] else fx.filter (fun e => e ≠ effect)

/-- `remoteUsers.find(u => u.id === senderId)`. -/
def findUser (users : List RUser) (uid : String) : Option RUser :=
  users.find? (fun u => u.id = uid)

/-- `App.handleRemoteMessage` (commsService.ts lines 210-297): reconcile one
inbound message into the session state and drive the Synth Engine. Messages
authored by the local participant are discarded. A payload of the wrong
shape for the tag never occurs in the protocol and leaves the state
unchanged here. -/
def handleRemoteMessage (localId : String) (st : SessionState) (msg : SignalMessage) :
    SessionState :=
  if msg.senderId = localId then st else
  match msg.type with
  | .JOIN =>
      match msg.payload with
      | .userP raw =>
          if (findUser st.remoteUsers msg.senderId).isSome then st
          else { st with remoteUsers := st.remoteUsers ++ [sanitizeUser raw] }
      | _ => st
  | .LEAVE =>
      { st with remoteUsers := st.remoteUsers.filter (fun u => u.id ≠ msg.senderId) }
  | .NOTE_ON =>
      match msg.payload with
      | .note p =>
          let senderEffects := match findUser st.remoteUsers msg.senderId with
            | some u => u.activeEffects
            | none => []
          let users' := st.remoteUsers.map (fun u =>
            if u.id = msg.senderId ∧ p.noteIndex ∉ u.activeNotes
            then { u with activeNotes := u.activeNotes ++ [p.noteIndex] } else u)
          { st with
            remoteUsers := users',
            engine := st.engine.noteOn msg.senderId p.noteIndex st.theme.baseFreq
              (semitonesJS (effectiveScale st) p.noteIndex) senderEffects }
      | _ => st
  | .NOTE_OFF =>
      match msg.payload with
      | .noteIdx n =>
          let users' := st.remoteUsers.map (fun u =>
            if u.id = msg.senderId
            then { u with activeNotes := u.activeNotes.filter (fun m => m ≠ n) } else u)
          { st with remoteUsers := users', engine := st.engine.noteOff msg.senderId n }
      | _ => st
  | .EFFECT_CHANGE =>
      match msg.payload with
      | .fx effect active =>
          let updated := match findUser st.remoteUsers msg.senderId with
            | some u => applyEffect effect active u.activeEffects
            | none => []
          let users' := st.remoteUsers.map (fun u =>
            if u.id = msg.senderId
            then { u with activeEffects := applyEffect effect active u.activeEffects } else u)
          { st with remoteUsers := users',
                    engine := st.engine.updateUserEffects msg.senderId updated }
      | _ => st
  | .SYNC_THEME =>
      match msg.payload with
      | .themeP t => { st with theme := t, overrideScale := "" }
      | _ => st
  | .SYNC_SCALE =>
      match msg.payload with
      | .scaleP sc => { st with overrideScale := sc }
      | _ => st

/-- The replay filter of the events listener (commsService.ts lines 47-57):
NOTE_ON/NOTE_OFF whose truthy timestamp predates `startTime` are dropped
before the callback; everything else is delivered. -/
def eventsListenerDelivers (startTime : Nat) (msg : SignalMessage) : Bool :=
  if msg.type = .NOTE_ON ∨ msg.type = .NOTE_OFF then
    match msg.timestamp with
    | some t => if t ≠ 0 ∧ t < startTime then false else true
    | none => true
  else true

/-- One inbound event-stream notification: reconcile only if the replay
filter delivers it. -/
def inboundEventStep (startTime : Nat) (localId : String) (st : SessionState)
    (msg : SignalMessage) : SessionState :=
  if eventsListenerDelivers startTime msg then handleRemoteMessage localId st msg else st

/-- A full (non-Partial) user turned back into a presence record. -/
def rawOf (u : RUser) : RawUser :=
  { id := some u.id, name := some u.name, colorIndex := some u.colorIndex,
    activeNotes := some u.activeNotes, activeEffects := some u.activeEffects }

/-- One presence-add notification (commsService.ts lines 60-79): the
snapshot is sanitized and delivered as a JOIN message with no timestamp —
there is no replay filter on this path. -/
def presenceAddStep (roomId localId : String) (st : SessionState) (snapshot : RawUser) :
    SessionState :=
  handleRemoteMessage localId st
    { type := .JOIN, roomId := roomId, senderId := (sanitizeUser snapshot).id,
      payload := .userP (rawOf (sanitizeUser snapshot)), timestamp := none }

/-- Shared default theme data for concrete scenarios. -/
def themeD : Theme := { baseFreq := 150, scale := "pentatonic_minor" }

/-- Sanitized ids are never the empty string. -/
theorem sanitizeUser_id_ne (r : RawUser) : (sanitizeUser r).id ≠ "" := by
  unfold sanitizeUser strOr
  cases hid : r.id with
  | none => simp
  | some v =>
      by_cases hv : v = "" <;> simp [hv]

/-- `find?` over a map that preserves ids commutes with the map. -/
theorem findUser_map (users : List RUser) (uid : String) (f : RUser → RUser)
    (hid : ∀ u, (f u).id = u.id) :
    findUser (users.map f) uid = (findUser users uid).map f := by
  induction users with
  | nil => rfl
  | cons u rest ih =>
      unfold findUser at ih ⊢
      rw [List.map_cons]
      by_cases h : u.id = uid
      · have hfu : (f u).id = uid := by rw [hid]; exact h
        rw [List.find?_cons, List.find?_cons]
        have e1 : (decide ((f u).id = uid)) = true := by simp [hfu]
        have e2 : (decide (u.id = uid)) = true := by simp [h]
        rw [e1, e2]
        rfl
      · have hfu : ¬ (f u).id = uid := by rw [hid]; exact h
        rw [List.find?_cons, List.find?_cons]
        have e1 : (decide ((f u).id = uid)) = false := by simp [hfu]
        have e2 : (decide (u.id = uid)) = false := by simp [h]
        rw [e1, e2]
        exact ih

/-- A found user satisfies the search predicate. -/
theorem findUser_id (users : List RUser) (uid : String) (u : RUser)
    (h : findUser users uid = some u) : u.id = uid := by
  unfold findUser at h
  have := List.find?_some h
  simpa using this

/-- A remote session whose roster holds one idle participant. -/
def stC4 : SessionState :=
  { remoteUsers := [{ id := "alice", name := "Alice", colorIndex := 1,
                      activeNotes := [], activeEffects := [] }],
    engine := Engine.empty.init, theme := themeD, overrideScale := "" }

/-- A NOTE_ON carrying the timestamp 0 — older than any real session start,
but falsy for the JS guard `data.timestamp && data.timestamp < startTime`. -/
def msgTs0 : SignalMessage :=
  { type := .NOTE_ON, roomId := "R", senderId := "alice",
    payload := .note { noteIndex := 2, velocity := 4/5, timestamp := 0, duration := 0 },
    timestamp := some 0 }

/-- Counterexample to C4 as stated: a NOTE_ON whose timestamp 0 is older
than the session start 1000 is nevertheless delivered (the guard treats the
falsy 0 as an absent timestamp) and does trigger a Voice. -/
theorem C4_counterexample :
    eventsListenerDelivers 1000 msgTs0 = true
    ∧ (0 : Nat) < 1000
    ∧ (inboundEventStep 1000 "me" stC4 msgTs0).engine.voices.length = 1 := by
  decide

/-- Claim C4 (amended): a NOTE_ON/NOTE_OFF whose nonzero timestamp predates
the session start is discarded before reconciliation, so it never changes
the session state and in particular triggers no Voice; JOIN messages pass
the events filter regardless of timestamp; and a presence-add notification
is always applied, so the roster contains the joining participant
afterwards. -/
theorem C4_replay_filtering :
    (∀ (startTime : Nat) (localId : String) (st : SessionState) (msg : SignalMessage) (t : Nat),
        (msg.type = .NOTE_ON ∨ msg.type = .NOTE_OFF) → msg.timestamp = some t → t ≠ 0 →
        t < startTime →
        eventsListenerDelivers startTime msg = false
        ∧ inboundEventStep startTime localId st msg = st)
    ∧ (∀ (startTime : Nat) (msg : SignalMessage), msg.type = .JOIN →
        eventsListenerDelivers startTime msg = true)
    ∧ (∀ (roomId localId : String) (st : SessionState) (snap : RawUser),
        (sanitizeUser snap).id ≠ localId →
        ∃ u ∈ (presenceAddStep roomId localId st snap).remoteUsers,
          u.id = (sanitizeUser snap).id) := by
  refine ⟨?_, ?_, ?_⟩
  · intro startTime localId st msg t htype hts ht0 hlt
    have hdel : eventsListenerDelivers startTime msg = false := by
      unfold eventsListenerDelivers
      rw [if_pos htype, hts]
      simp [ht0, hlt]
    exact ⟨hdel, by simp [inboundEventStep, hdel]⟩
  · intro startTime msg htype
    have : ¬ (msg.type = .NOTE_ON ∨ msg.type = .NOTE_OFF) := by
      rw [htype]
      rintro (hc | hc) <;> cases hc
    simp [eventsListenerDelivers, this]
  · intro roomId localId st snap hne
    unfold presenceAddStep handleRemoteMessage
    simp only [hne, if_false]
    cases hfind : (findUser st.remoteUsers (sanitizeUser snap).id).isSome with
    | true =>
        simp only [hfind, if_true]
        rw [Option.isSome_iff_exists] at hfind
        obtain ⟨u, hu⟩ := hfind
        exact ⟨u, List.mem_of_find?_eq_some hu, findUser_id _ _ _ hu⟩
    | false =>
        simp only [hfind, Bool.false_eq_true, if_false]
        refine ⟨sanitizeUser (rawOf (sanitizeUser snap)), by simp, ?_⟩
        have hid : (sanitizeUser snap).id ≠ "" := sanitizeUser_id_ne snap
        show strOr (some (sanitizeUser snap).id) "unknown" = (sanitizeUser snap).id
        simp [strOr, hid]

/-- Witness for C4: a NOTE_ON stamped 5 before session start 1000 is dropped
and leaves the session untouched; a presence snapshot for alice lands in the
roster. -/
theorem C4_witness :
    (eventsListenerDelivers 1000
        { type := .NOTE_ON, roomId := "R", senderId := "alice",
          payload := .note { noteIndex := 2, velocity := 4/5, timestamp := 5, duration := 0 },
          timestamp := some 5 } = false
      ∧ inboundEventStep 1000 "me" stC4
          { type := .NOTE_ON, roomId := "R", senderId := "alice",
            payload := .note { noteIndex := 2, velocity := 4/5, timestamp := 5, duration := 0 },
            timestamp := some 5 } = stC4)
    ∧ (∃ u ∈ (presenceAddStep "R" "me" stC4
          { id := some "bob", name := some "Bob", colorIndex := some 0,
            activeNotes := none, activeEffects := none }).remoteUsers,
        u.id = (sanitizeUser
          { id := some "bob", name := some "Bob", colorIndex := some 0,
            activeNotes := none, activeEffects := none }).id) := by
  have h := C4_replay_filtering
  refine ⟨h.1 1000 "me" stC4 _ 5 (by left; rfl) rfl (by decide) (by decide), ?_⟩
  exact h.2.2 "R" "me" stC4 _ (by decide)

/-- An EFFECT_CHANGE envelope. -/
def effMsg (roomId sender effect : String) (active : Bool) (ts : Option Nat) : SignalMessage :=
  { type := .EFFECT_CHANGE, roomId := roomId, senderId := sender,
    payload := .fx effect active, timestamp := ts }

/-- Effect of one EFFECT_CHANGE message on the sender's roster entry. -/
theorem effectChange_findUser (localId : String) (st : SessionState)
    (sender effect roomId : String) (ts : Option Nat) (active : Bool) (u : RUser)
    (hs : ¬ sender = localId)
    (hu : findUser st.remoteUsers sender = some u) :
    findUser (handleRemoteMessage localId st (effMsg roomId sender effect active ts)).remoteUsers
        sender
      = some { u with activeEffects := applyEffect effect active u.activeEffects } := by
  unfold handleRemoteMessage effMsg
  rw [if_neg hs]
  show findUser (st.remoteUsers.map (fun u' =>
      if u'.id = sender
      then { u' with activeEffects := applyEffect effect active u'.activeEffects } else u'))
    sender = _
  rw [findUser_map _ _ _ (fun u' => by by_cases hc : u'.id = sender <;> simp [hc])]
  rw [hu]
  have hid := findUser_id _ _ _ hu
  simp [hid]

/-- Removal filters are idempotent. -/
theorem filter_ne_idem (l : List String) (effect : String) :
    (l.filter (fun e => e ≠ effect)).filter (fun e => e ≠ effect)
      = l.filter (fun e => e ≠ effect) := by
  induction l with
  | nil => rfl
  | cons a rest ih =>
      by_cases h : a = effect <;> simp [List.filter_cons, h, ih]

/-- A session whose roster holds bob with no active effects. -/
def stC5 : SessionState :=
  { remoteUsers := [{ id := "bob", name := "Bob", colorIndex := 0,
                      activeNotes := [], activeEffects := [] }],
    engine := Engine.empty, theme := themeD, overrideScale := "" }

/-- Counterexample to C5 as stated: two identical
`EFFECT_CHANGE{reverb_max, active:true}` messages from bob leave
`"reverb_max"` in his effect set twice, not exactly once. -/
theorem C5_counterexample :
    ((findUser (handleRemoteMessage "me" (handleRemoteMessage "me" stC5
          (effMsg "R" "bob" "reverb_max" true (some 5)))
          (effMsg "R" "bob" "reverb_max" true (some 5))).remoteUsers "bob").map
        (fun u => u.activeEffects)
      = some ["reverb_max", "reverb_max"])
    ∧ ¬ ((findUser (handleRemoteMessage "me" (handleRemoteMessage "me" stC5
          (effMsg "R" "bob" "reverb_max" true (some 5)))
          (effMsg "R" "bob" "reverb_max" true (some 5))).remoteUsers "bob").map
        (fun u => u.activeEffects.count "reverb_max")
      = some 1) := by
  decide

/-- Claim C5 (amended): applying an inbound EFFECT_CHANGE with `active:true`
appends the effect to the sender's list unconditionally, so a duplicate
delivery leaves the effect twice (list, not set, semantics); applying
`active:false` removes every occurrence, so the effect is absent afterwards
and repeated `active:false` deliveries leave the same effect list. -/
theorem C5_effect_change_list_semantics (localId : String) (st : SessionState)
    (sender effect roomId : String) (ts : Option Nat) (u : RUser)
    (hs : ¬ sender = localId)
    (hu : findUser st.remoteUsers sender = some u) :
    ((findUser (handleRemoteMessage localId st (effMsg roomId sender effect true ts)).remoteUsers
          sender).map (fun w => w.activeEffects)
        = some (u.activeEffects ++ [effect]))
    ∧ ((findUser (handleRemoteMessage localId
            (handleRemoteMessage localId st (effMsg roomId sender effect true ts))
            (effMsg roomId sender effect true ts)).remoteUsers sender).map
          (fun w => w.activeEffects)
        = some (u.activeEffects ++ [effect] ++ [effect]))
    ∧ ((findUser (handleRemoteMessage localId st (effMsg roomId sender effect false ts)).remoteUsers
          sender).map (fun w => w.activeEffects)
        = some (u.activeEffects.filter (fun e => e ≠ effect)))
    ∧ effect ∉ u.activeEffects.filter (fun e => e ≠ effect)
    ∧ ((findUser (handleRemoteMessage localId
            (handleRemoteMessage localId st (effMsg roomId sender effect false ts))
            (effMsg roomId sender effect false ts)).remoteUsers sender).map
          (fun w => w.activeEffects)
        = some (u.activeEffects.filter (fun e => e ≠ effect))) := by
  have h1 := effectChange_findUser localId st sender effect roomId ts true u hs hu
  have h1b := effectChange_findUser localId
    (handleRemoteMessage localId st (effMsg roomId sender effect true ts))
    sender effect roomId ts true _ hs h1
  have h2 := effectChange_findUser localId st sender effect roomId ts false u hs hu
  have h2b := effectChange_findUser localId
    (handleRemoteMessage localId st (effMsg roomId sender effect false ts))
    sender effect roomId ts false _ hs h2
  refine ⟨?_, ?_, ?_, ?_, ?_⟩
  · rw [h1]; simp [applyEffect]
  · rw [h1b]; simp [applyEffect]
  · rw [h2]; simp [applyEffect]
  · simp
  · rw [h2b]
    simp [applyEffect, filter_ne_idem]

/-- Witness for C5: instantiating the amended claim at bob's session. -/
theorem C5_witness :
    ((findUser (handleRemoteMessage "me" (handleRemoteMessage "me" stC5
          (effMsg "R" "bob" "reverb_max" true (some 5)))
          (effMsg "R" "bob" "reverb_max" true (some 5))).remoteUsers "bob").map
        (fun w => w.activeEffects)
      = some ([] ++ ["reverb_max"] ++ ["reverb_max"]))
    ∧ ((findUser (handleRemoteMessage "me" stC5
          (effMsg "R" "bob" "reverb_max" false (some 5))).remoteUsers "bob").map
        (fun w => w.activeEffects)
      = some (List.filter (fun e => e ≠ "reverb_max") [])) := by
  have h := C5_effect_change_list_semantics "me" stC5 "bob" "reverb_max" "R" (some 5)
    { id := "bob", name := "Bob", colorIndex := 0, activeNotes := [], activeEffects := [] }
    (by decide) (by decide)
  exact ⟨h.2.1, h.2.2.1⟩

/-- A session holding alice with one sounding Voice for her degree 2. -/
def stC6 : SessionState :=
  { remoteUsers := [{ id := "alice", name := "Alice", colorIndex := 1,
                      activeNotes := [2], activeEffects := [] }],
    engine := Engine.empty.noteOn "alice" 2 150 (some 5) [],
    theme := themeD, overrideScale := "" }

/-- A LEAVE envelope. -/
def leaveMsg (roomId sender : String) : SignalMessage :=
  { type := .LEAVE, roomId := roomId, senderId := sender,
    payload := .nullP, timestamp := none }

/-- Counterexample to C6 as stated: processing alice's LEAVE removes her
roster entry but her Voice for degree 2 is still registered in the Synth
Engine afterwards. -/
theorem C6_counterexample :
    (handleRemoteMessage "me" stC6 (leaveMsg "R" "alice")).remoteUsers = []
    ∧ (regFind (handleRemoteMessage "me" stC6 (leaveMsg "R" "alice")).engine.voices
        (voiceKey "alice" 2)).isSome = true := by
  decide

/-- Claim C6 (amended): reconciling an inbound LEAVE removes the sender's
remote UserState entry but leaves the Synth Engine untouched — no Voice of
the departed participant is released, so registry entries keyed by that
participant persist. -/
theorem C6_leave_removes_roster_only (localId : String) (st : SessionState)
    (sender roomId : String)
    (hs : ¬ sender = localId) :
    (handleRemoteMessage localId st (leaveMsg roomId sender)).remoteUsers
      = st.remoteUsers.filter (fun u => u.id ≠ sender)
    ∧ (handleRemoteMessage localId st (leaveMsg roomId sender)).engine = st.engine := by
  unfold handleRemoteMessage leaveMsg
  rw [if_neg hs]
  exact ⟨rfl, rfl⟩

/-- Witness for C6: alice's LEAVE at the concrete session. -/
theorem C6_witness :
    (handleRemoteMessage "me" stC6 (leaveMsg "R" "alice")).remoteUsers
      = stC6.remoteUsers.filter (fun u => u.id ≠ "alice")
    ∧ (handleRemoteMessage "me" stC6 (leaveMsg "R" "alice")).engine = stC6.engine :=
  C6_leave_removes_roster_only "me" stC6 "alice" "R" (by decide)

/-!
Local input (commsService.ts, App `handleKeyDown`, lines 324-360): a note
key press expands through the active chord mode; for each resulting degree
the functional state update enforces the polyphony ceiling and de-duplicates
activeNotes, while `audioEngine.noteOn` and `comms.sendNote` are called
unconditionally. The id and effect set passed to `noteOn` are read from the
render-time `localUser` (the state at the start of the event), as in the
closure. The effect-key branch (lines 362-386) feeds no claim and is not
modelled.
-/

/-- `NOTE_KEYS` (lines 176-179). -/
def NOTE_KEYS (k : String) : Option Int :=
  match k with
  | "s" => some 0 | "d" => some 1 | "f" => some 2 | "g" => some 3
  | "h" => some 4 | "j" => some 5 | "k" => some 6
  | "e" => some 7 | "r" => some 8 | "t" => some 9 | "y" => some 10
  | "u" => some 11 | "i" => some 12 | "o" => some 13
  | _ => none

/-- `CHORD_MODES` (audioEngine.ts lines 21-28). -/
def CHORD_MODES (name : String) : Option (List Int) :=
  match name with
  | "Single" => some [0]
  | "Octaves" => some [0, 7]
  | "Triad (1-3-5)" => some [0, 2, 4]
  | "Sus4 (1-4-5)" => some [0, 3, 4]
  | "Open 5th (1-5)" => some [0, 4]
  | "Cluster (1-2)" => some [0, 1]
  | _ => none

/-- `CHORD_MODES[activeChordMode] || [0]` (line 335). -/
def chordIntervals (name : String) : List Int :=
  (CHORD_MODES name).getD [0]

/-- `MAX_POLYPHONY` (line 188). -/
def MAX_POLYPHONY : Nat := 5

/-- The local participant's state, engine and outbound message log. -/
structure LocalState where
  localUser : RUser
  engine : Engine
  sent : List SignalMessage
deriving DecidableEq

/-- The message built by `comms.sendNote` (commsService.ts lines 95-107)
for the payload assembled at lines 352-357 (velocity 0.8, duration 0). -/
def localNoteOnMsg (roomId userId : String) (noteIndex : Int) (now : Nat) : SignalMessage :=
  { type := .NOTE_ON, roomId := roomId, senderId := userId,
    payload := .note { noteIndex := noteIndex, velocity := 4/5, timestamp := now, duration := 0 },
    timestamp := some now }

/-- One iteration of `intervals.forEach` (lines 337-359): guard-and-extend
activeNotes, then unconditionally `noteOn` and `sendNote`. -/
def keyDownStep (renderUser : RUser) (baseFreq : ℚ) (scaleName roomId : String) (now : Nat)
    (acc : LocalState) (noteIndex : Int) : LocalState :=
  let notes := acc.localUser.activeNotes
  let notes' := if notes.length ≥ MAX_POLYPHONY then notes
                else if noteIndex ∈ notes then notes
                else notes ++ [noteIndex]
  { localUser := { acc.localUser with activeNotes := notes' },
    engine := acc.engine.noteOn renderUser.id noteIndex baseFreq
      (semitonesJS scaleName noteIndex) renderUser.activeEffects,
    sent := acc.sent ++ [localNoteOnMsg roomId renderUser.id noteIndex now] }

/-- The note-key branch of `handleKeyDown` (lines 331-360): resolve the key,
reject the whole press when the ceiling is already reached, otherwise fold
the chord expansion. -/
def handleKeyDownNote (chordMode : String) (baseFreq : ℚ) (scaleName roomId : String)
    (now : Nat) (st : LocalState) (key : String) : LocalState :=
  match NOTE_KEYS key with
  | none => st
  | some baseIndex =>
      if st.localUser.activeNotes.length ≥ MAX_POLYPHONY then st
      else (chordIntervals chordMode).foldl
        (fun acc interval =>
          keyDownStep st.localUser baseFreq scaleName roomId now acc (baseIndex + interval)) st

/-- A local participant already holding four notes, with a sounding Voice
for none of the chord degrees. -/
def stC2 : LocalState :=
  { localUser := { id := "me", name := "Me", colorIndex := 0,
                   activeNotes := [10, 11, 12, 13], activeEffects := [] },
    engine := Engine.empty.init, sent := [] }

/-- Counterexample to C2 as stated: pressing the s key in Triad mode from
four held notes expands to degrees 0, 2, 4; degree 0 fills the fifth slot,
degree 2 is rejected by the ceiling (activeNotes stays without it), yet a
Voice for degree 2 is constructed and a NOTE_ON for it is emitted. -/
theorem C2_counterexample :
    (handleKeyDownNote "Triad (1-3-5)" 150 "pentatonic_minor" "R" 1000 stC2 "s").localUser.activeNotes
      = [10, 11, 12, 13, 0]
    ∧ (2 : Int) ∉ (handleKeyDownNote "Triad (1-3-5)" 150 "pentatonic_minor" "R" 1000 stC2 "s").localUser.activeNotes
    ∧ (regFind (handleKeyDownNote "Triad (1-3-5)" 150 "pentatonic_minor" "R" 1000 stC2 "s").engine.voices
        (voiceKey "me" 2)).isSome = true
    ∧ (handleKeyDownNote "Triad (1-3-5)" 150 "pentatonic_minor" "R" 1000 stC2 "s").sent
        = [localNoteOnMsg "R" "me" 0 1000, localNoteOnMsg "R" "me" 2 1000,
           localNoteOnMsg "R" "me" 4 1000] := by
  refine ⟨by decide, by decide, by decide, ?_⟩
  show (((stC2.sent ++ [localNoteOnMsg "R" "me" (0 + 0) 1000])
        ++ [localNoteOnMsg "R" "me" (0 + 2) 1000])
        ++ [localNoteOnMsg "R" "me" (0 + 4) 1000]) = _
  rfl

/-! Engine facts used by the key-down fold. -/

theorem noteOn_find_self (e : Engine) (userId : String) (noteIndex : Int)
    (base : ℚ) (semis : Option Int) (fx : List String) :
    regFind (e.noteOn userId noteIndex base semis fx).voices (voiceKey userId noteIndex)
      = some { vid := e.nextId, base := base, semis := semis, effects := fx } := by
  cases hf : regFind e.voices (voiceKey userId noteIndex) with
  | none =>
      rw [noteOn_of_none e userId noteIndex base semis fx hf]
      rw [regFind_append, hf]
      simp [regFind]
  | some v =>
      rw [noteOn_of_find e userId noteIndex base semis fx v hf]
      rw [regFind_append, regFind_erase_self]
      simp [regFind]

theorem noteOn_find_isSome (e : Engine) (userId : String) (noteIndex : Int)
    (base : ℚ) (semis : Option Int) (fx : List String) (k : String)
    (h : (regFind e.voices k).isSome = true) :
    (regFind (e.noteOn userId noteIndex base semis fx).voices k).isSome = true := by
  by_cases hk : k = voiceKey userId noteIndex
  · rw [hk, noteOn_find_self]
    rfl
  · cases hf : regFind e.voices (voiceKey userId noteIndex) with
    | none =>
        rw [noteOn_of_none e userId noteIndex base semis fx hf]
        rw [regFind_append]
        cases hek : regFind e.voices k with
        | none => rw [hek] at h; simp at h
        | some w => rfl
    | some v =>
        rw [noteOn_of_find e userId noteIndex base semis fx v hf]
        rw [regFind_append]
        rw [regFind_erase_other _ _ _ hk]
        cases hek : regFind e.voices k with
        | none => rw [hek] at h; simp at h
        | some w => rfl

theorem noteOn_find_pres (e : Engine) (userId : String) (noteIndex : Int)
    (base : ℚ) (semis : Option Int) (fx : List String) (k : String) (v : Voice)
    (hk : k ≠ voiceKey userId noteIndex)
    (h : regFind e.voices k = some v) :
    regFind (e.noteOn userId noteIndex base semis fx).voices k = some v := by
  cases hf : regFind e.voices (voiceKey userId noteIndex) with
  | none =>
      rw [noteOn_of_none e userId noteIndex base semis fx hf]
      rw [regFind_append, h]
  | some w =>
      rw [noteOn_of_find e userId noteIndex base semis fx w hf]
      rw [regFind_append, regFind_erase_other _ _ _ hk, h]

theorem noteOn_released_mono (e : Engine) (userId : String) (noteIndex : Int)
    (base : ℚ) (semis : Option Int) (fx : List String) (x : Nat)
    (h : x ∈ e.released) :
    x ∈ (e.noteOn userId noteIndex base semis fx).released := by
  cases hf : regFind e.voices (voiceKey userId noteIndex) with
  | none =>
      rw [noteOn_of_none e userId noteIndex base semis fx hf]
      exact h
  | some v =>
      rw [noteOn_of_find e userId noteIndex base semis fx v hf]
      simp only [List.mem_append]
      exact Or.inl h

theorem noteOn_releases (e : Engine) (userId : String) (noteIndex : Int)
    (base : ℚ) (semis : Option Int) (fx : List String) (v : Voice)
    (h : regFind e.voices (voiceKey userId noteIndex) = some v) :
    v.vid ∈ (e.noteOn userId noteIndex base semis fx).released := by
  rw [noteOn_of_find e userId noteIndex base semis fx v h]
  simp

/-! Facts about the chord-expansion fold. -/

theorem foldSteps_len (ru : RUser) (bf : ℚ) (sc rm : String) (now : Nat) (b : Int)
    (ivs : List Int) (acc : LocalState)
    (h : acc.localUser.activeNotes.length ≤ MAX_POLYPHONY) :
    (ivs.foldl (fun a i => keyDownStep ru bf sc rm now a (b + i)) acc).localUser.activeNotes.length
      ≤ MAX_POLYPHONY := by
  induction ivs generalizing acc with
  | nil => exact h
  | cons i rest ih =>
      apply ih
      show (let notes := acc.localUser.activeNotes
            if notes.length ≥ MAX_POLYPHONY then notes
            else if (b + i) ∈ notes then notes
            else notes ++ [b + i]).length ≤ MAX_POLYPHONY
      by_cases h1 : acc.localUser.activeNotes.length ≥ MAX_POLYPHONY
      · simpa [h1] using h
      · by_cases h2 : (b + i) ∈ acc.localUser.activeNotes
        · simpa [h1, h2] using h
        · simp only [h1, h2, if_false, List.length_append, List.length_singleton]
          omega

/-- The activeNotes update performed by one chord-expansion step. -/
theorem keyDownStep_notes (ru : RUser) (bf : ℚ) (sc rm : String) (now : Nat)
    (acc : LocalState) (n : Int) :
    (keyDownStep ru bf sc rm now acc n).localUser.activeNotes
      = if acc.localUser.activeNotes.length ≥ MAX_POLYPHONY then acc.localUser.activeNotes
        else if n ∈ acc.localUser.activeNotes then acc.localUser.activeNotes
        else acc.localUser.activeNotes ++ [n] := rfl

theorem foldSteps_count_mem (ru : RUser) (bf : ℚ) (sc rm : String) (now : Nat) (b : Int)
    (ivs : List Int) (acc : LocalState) (d : Int)
    (h : d ∈ acc.localUser.activeNotes) :
    (ivs.foldl (fun a i => keyDownStep ru bf sc rm now a (b + i)) acc).localUser.activeNotes.count d
        = acc.localUser.activeNotes.count d
    ∧ d ∈ (ivs.foldl (fun a i => keyDownStep ru bf sc rm now a (b + i)) acc).localUser.activeNotes := by
  induction ivs generalizing acc with
  | nil => exact ⟨rfl, h⟩
  | cons i rest ih =>
      have hstep : (keyDownStep ru bf sc rm now acc (b + i)).localUser.activeNotes.count d
            = acc.localUser.activeNotes.count d
          ∧ d ∈ (keyDownStep ru bf sc rm now acc (b + i)).localUser.activeNotes := by
        rw [keyDownStep_notes]
        by_cases h1 : acc.localUser.activeNotes.length ≥ MAX_POLYPHONY
        · rw [if_pos h1]
          exact ⟨rfl, h⟩
        · rw [if_neg h1]
          by_cases h2 : (b + i) ∈ acc.localUser.activeNotes
          · rw [if_pos h2]
            exact ⟨rfl, h⟩
          · have hne : b + i ≠ d := fun hc => h2 (hc ▸ h)
            have hz : ([b + i] : List Int).count d = 0 :=
              List.count_eq_zero.mpr (by simpa using Ne.symm hne)
            rw [if_neg h2]
            constructor
            · rw [List.count_append, hz]
              rfl
            · exact List.mem_append_left _ h
      obtain ⟨hc, hm⟩ := ih (keyDownStep ru bf sc rm now acc (b + i)) hstep.2
      constructor
      · rw [List.foldl_cons, hc, hstep.1]
      · rw [List.foldl_cons]
        exact hm

/-- The engine update performed by one chord-expansion step. -/
theorem keyDownStep_engine (ru : RUser) (bf : ℚ) (sc rm : String) (now : Nat)
    (acc : LocalState) (n : Int) :
    (keyDownStep ru bf sc rm now acc n).engine
      = acc.engine.noteOn ru.id n bf (semitonesJS sc n) ru.activeEffects := rfl

/-- The emission performed by one chord-expansion step. -/
theorem keyDownStep_sent (ru : RUser) (bf : ℚ) (sc rm : String) (now : Nat)
    (acc : LocalState) (n : Int) :
    (keyDownStep ru bf sc rm now acc n).sent
      = acc.sent ++ [localNoteOnMsg rm ru.id n now] := rfl

theorem foldSteps_sent_count (ru : RUser) (bf : ℚ) (sc rm : String) (now : Nat) (b : Int)
    (ivs : List Int) (acc : LocalState) (m : SignalMessage) :
    acc.sent.count m
      ≤ ((ivs.foldl (fun a i => keyDownStep ru bf sc rm now a (b + i)) acc).sent.count m) := by
  induction ivs generalizing acc with
  | nil => exact Nat.le_refl _
  | cons i rest ih =>
      rw [List.foldl_cons]
      refine Nat.le_trans ?_ (ih _)
      rw [keyDownStep_sent, List.count_append]
      exact Nat.le_add_right _ _

theorem foldSteps_voice_isSome (ru : RUser) (bf : ℚ) (sc rm : String) (now : Nat) (b : Int)
    (ivs : List Int) (acc : LocalState) (k : String)
    (h : (regFind acc.engine.voices k).isSome = true) :
    (regFind ((ivs.foldl (fun a i => keyDownStep ru bf sc rm now a (b + i)) acc)).engine.voices
      k).isSome = true := by
  induction ivs generalizing acc with
  | nil => exact h
  | cons i rest ih =>
      rw [List.foldl_cons]
      refine ih _ ?_
      rw [keyDownStep_engine]
      exact noteOn_find_isSome _ _ _ _ _ _ _ h

theorem foldSteps_released_mono (ru : RUser) (bf : ℚ) (sc rm : String) (now : Nat) (b : Int)
    (ivs : List Int) (acc : LocalState) (x : Nat)
    (h : x ∈ acc.engine.released) :
    x ∈ ((ivs.foldl (fun a i => keyDownStep ru bf sc rm now a (b + i)) acc)).engine.released := by
  induction ivs generalizing acc with
  | nil => exact h
  | cons i rest ih =>
      rw [List.foldl_cons]
      refine ih _ ?_
      rw [keyDownStep_engine]
      exact noteOn_released_mono _ _ _ _ _ _ _ h

theorem foldSteps_Q (ru : RUser) (bf : ℚ) (sc rm : String) (now : Nat) (b : Int)
    (ivs : List Int) (acc : LocalState) (v : Voice) (k : String)
    (h : v.vid ∈ acc.engine.released ∨ regFind acc.engine.voices k = some v) :
    v.vid ∈ ((ivs.foldl (fun a i => keyDownStep ru bf sc rm now a (b + i)) acc)).engine.released
    ∨ regFind ((ivs.foldl (fun a i => keyDownStep ru bf sc rm now a (b + i)) acc)).engine.voices k
        = some v := by
  induction ivs generalizing acc with
  | nil => exact h
  | cons i rest ih =>
      rw [List.foldl_cons]
      refine ih _ ?_
      rcases h with h | h
      · left
        rw [keyDownStep_engine]
        exact noteOn_released_mono _ _ _ _ _ _ _ h
      · by_cases hk : k = voiceKey ru.id (b + i)
        · left
          rw [keyDownStep_engine]
          exact noteOn_releases _ _ _ _ _ _ v (by rw [← hk]; exact h)
        · right
          rw [keyDownStep_engine]
          exact noteOn_find_pres _ _ _ _ _ _ _ _ hk h

/-- Claim C10: when chord-mode expansion reaches a degree the local
participant already holds (and the press passed the pre-expansion guard),
the activeNotes multiset is unchanged at that degree, yet the Synth Engine
noteOn still runs — the registry still holds a Voice for the key and the
previously sounding Voice has been released and replaced — and a NOTE_ON
message for the degree is still emitted to the transport. -/
theorem C10_duplicate_degree_retrigger
    (chordMode : String) (baseFreq : ℚ) (scaleName roomId : String) (now : Nat)
    (st : LocalState) (key : String) (baseIndex interval : Int) (v : Voice)
    (hk : NOTE_KEYS key = some baseIndex)
    (hiv : interval ∈ chordIntervals chordMode)
    (hlen : st.localUser.activeNotes.length < MAX_POLYPHONY)
    (hmem : (baseIndex + interval) ∈ st.localUser.activeNotes)
    (hv : regFind st.engine.voices (voiceKey st.localUser.id (baseIndex + interval)) = some v) :
    (handleKeyDownNote chordMode baseFreq scaleName roomId now st key).localUser.activeNotes.count
        (baseIndex + interval) = st.localUser.activeNotes.count (baseIndex + interval)
    ∧ (regFind (handleKeyDownNote chordMode baseFreq scaleName roomId now st key).engine.voices
        (voiceKey st.localUser.id (baseIndex + interval))).isSome = true
    ∧ v.vid ∈ (handleKeyDownNote chordMode baseFreq scaleName roomId now st key).engine.released
    ∧ st.sent.count (localNoteOnMsg roomId st.localUser.id (baseIndex + interval) now)
        < (handleKeyDownNote chordMode baseFreq scaleName roomId now st key).sent.count
            (localNoteOnMsg roomId st.localUser.id (baseIndex + interval) now) := by
  have hne2 : ¬ st.localUser.activeNotes.length ≥ MAX_POLYPHONY := by omega
  have hkd : handleKeyDownNote chordMode baseFreq scaleName roomId now st key
      = (chordIntervals chordMode).foldl
          (fun acc i => keyDownStep st.localUser baseFreq scaleName roomId now acc (baseIndex + i))
          st := by
    unfold handleKeyDownNote
    simp only [hk]
    rw [if_neg hne2]
  rw [hkd]
  obtain ⟨l1, l2, hsplit⟩ := List.append_of_mem hiv
  refine ⟨?_, ?_, ?_, ?_⟩
  · exact (foldSteps_count_mem st.localUser baseFreq scaleName roomId now baseIndex
      (chordIntervals chordMode) st _ hmem).1
  · rw [hsplit, List.foldl_append, List.foldl_cons]
    apply foldSteps_voice_isSome
    rw [keyDownStep_engine, noteOn_find_self]
    rfl
  · rw [hsplit, List.foldl_append, List.foldl_cons]
    apply foldSteps_released_mono
    have hQ := foldSteps_Q st.localUser baseFreq scaleName roomId now baseIndex l1 st v
      (voiceKey st.localUser.id (baseIndex + interval)) (Or.inr hv)
    rw [keyDownStep_engine]
    rcases hQ with hQ | hQ
    · exact noteOn_released_mono _ _ _ _ _ _ _ hQ
    · exact noteOn_releases _ _ _ _ _ _ _ hQ
  · have h1 := foldSteps_sent_count st.localUser baseFreq scaleName roomId now baseIndex l1 st
      (localNoteOnMsg roomId st.localUser.id (baseIndex + interval) now)
    have h2 : (keyDownStep st.localUser baseFreq scaleName roomId now
          (l1.foldl (fun a i => keyDownStep st.localUser baseFreq scaleName roomId now a
            (baseIndex + i)) st) (baseIndex + interval)).sent.count
            (localNoteOnMsg roomId st.localUser.id (baseIndex + interval) now)
        = (l1.foldl (fun a i => keyDownStep st.localUser baseFreq scaleName roomId now a
            (baseIndex + i)) st).sent.count
            (localNoteOnMsg roomId st.localUser.id (baseIndex + interval) now) + 1 := by
      rw [keyDownStep_sent, List.count_append]
      simp
    have h3 := foldSteps_sent_count st.localUser baseFreq scaleName roomId now baseIndex l2
      (keyDownStep st.localUser baseFreq scaleName roomId now
        (l1.foldl (fun a i => keyDownStep st.localUser baseFreq scaleName roomId now a
          (baseIndex + i)) st) (baseIndex + interval))
      (localNoteOnMsg roomId st.localUser.id (baseIndex + interval) now)
    rw [hsplit, List.foldl_append, List.foldl_cons]
    omega

/-- A local participant holding degree 0 with its Voice sounding. -/
def stC10 : LocalState :=
  { localUser := { id := "me", name := "Me", colorIndex := 0,
                   activeNotes := [0], activeEffects := [] },
    engine := Engine.empty.noteOn "me" 0 150 (some 0) [],
    sent := [] }

/-- Witness for C10: re-pressing the s key in Single mode while degree 0 is
already held keeps activeNotes unchanged, retriggers the Voice (old Voice 0
released, a Voice again registered) and emits another NOTE_ON. -/
theorem C10_witness :
    (handleKeyDownNote "Single" 150 "pentatonic_minor" "R" 7 stC10 "s").localUser.activeNotes.count
        ((0 : Int) + 0) = stC10.localUser.activeNotes.count ((0 : Int) + 0)
    ∧ (regFind (handleKeyDownNote "Single" 150 "pentatonic_minor" "R" 7 stC10 "s").engine.voices
        (voiceKey stC10.localUser.id ((0 : Int) + 0))).isSome = true
    ∧ (⟨0, 150, some 0, []⟩ : Voice).vid
        ∈ (handleKeyDownNote "Single" 150 "pentatonic_minor" "R" 7 stC10 "s").engine.released
    ∧ stC10.sent.count (localNoteOnMsg "R" stC10.localUser.id ((0 : Int) + 0) 7)
        < (handleKeyDownNote "Single" 150 "pentatonic_minor" "R" 7 stC10 "s").sent.count
            (localNoteOnMsg "R" stC10.localUser.id ((0 : Int) + 0) 7) :=
  C10_duplicate_degree_retrigger "Single" 150 "pentatonic_minor" "R" 7 stC10 "s" 0 0
    ⟨0, 150, some 0, []⟩ (by decide) (by decide) (by decide) (by decide) (by decide)

/-- Claim C2 (amended): the ceiling caps activeNotes at N = MAX_POLYPHONY
(and the concrete N+1-degree scenario ends with exactly N entries), but a
note-on processed during chord expansion always constructs a Voice and
always emits a NOTE_ON message, whether or not the ceiling rejected its
activeNotes update; only a press arriving when the ceiling is already
reached is rejected wholesale with no Voice and no message. -/
theorem C2_polyphony_cap_with_unguarded_emission :
    (∀ (chordMode : String) (baseFreq : ℚ) (scaleName roomId : String) (now : Nat)
        (st : LocalState) (key : String),
        st.localUser.activeNotes.length ≤ MAX_POLYPHONY →
        (handleKeyDownNote chordMode baseFreq scaleName roomId now st key).localUser.activeNotes.length
          ≤ MAX_POLYPHONY)
    ∧ (∀ (chordMode : String) (baseFreq : ℚ) (scaleName roomId : String) (now : Nat)
        (st : LocalState) (key : String) (baseIndex interval : Int),
        NOTE_KEYS key = some baseIndex →
        interval ∈ chordIntervals chordMode →
        st.localUser.activeNotes.length < MAX_POLYPHONY →
        (regFind (handleKeyDownNote chordMode baseFreq scaleName roomId now st key).engine.voices
            (voiceKey st.localUser.id (baseIndex + interval))).isSome = true
        ∧ 0 < (handleKeyDownNote chordMode baseFreq scaleName roomId now st key).sent.count
            (localNoteOnMsg roomId st.localUser.id (baseIndex + interval) now))
    ∧ (handleKeyDownNote "Triad (1-3-5)" 150 "pentatonic_minor" "R" 1000 stC2 "s").localUser.activeNotes.length
        = MAX_POLYPHONY := by
  refine ⟨?_, ?_, by decide⟩
  · intro chordMode baseFreq scaleName roomId now st key hlen
    unfold handleKeyDownNote
    cases hk : NOTE_KEYS key with
    | none => exact hlen
    | some b =>
        show (if st.localUser.activeNotes.length ≥ MAX_POLYPHONY then st
              else (chordIntervals chordMode).foldl
                (fun acc interval =>
                  keyDownStep st.localUser baseFreq scaleName roomId now acc (b + interval))
                st).localUser.activeNotes.length ≤ MAX_POLYPHONY
        by_cases hg : st.localUser.activeNotes.length ≥ MAX_POLYPHONY
        · rw [if_pos hg]
          exact hlen
        · rw [if_neg hg]
          exact foldSteps_len st.localUser baseFreq scaleName roomId now b _ st hlen
  · intro chordMode baseFreq scaleName roomId now st key baseIndex interval hk hiv hlen
    have hne2 : ¬ st.localUser.activeNotes.length ≥ MAX_POLYPHONY := by omega
    have hkd : handleKeyDownNote chordMode baseFreq scaleName roomId now st key
        = (chordIntervals chordMode).foldl
            (fun acc i => keyDownStep st.localUser baseFreq scaleName roomId now acc (baseIndex + i))
            st := by
      unfold handleKeyDownNote
      simp only [hk]
      rw [if_neg hne2]
    rw [hkd]
    obtain ⟨l1, l2, hsplit⟩ := List.append_of_mem hiv
    constructor
    · rw [hsplit, List.foldl_append, List.foldl_cons]
      apply foldSteps_voice_isSome
      rw [keyDownStep_engine, noteOn_find_self]
      rfl
    · have h2 : (keyDownStep st.localUser baseFreq scaleName roomId now
          (l1.foldl (fun a i => keyDownStep st.localUser baseFreq scaleName roomId now a
            (baseIndex + i)) st) (baseIndex + interval)).sent.count
            (localNoteOnMsg roomId st.localUser.id (baseIndex + interval) now)
        = (l1.foldl (fun a i => keyDownStep st.localUser baseFreq scaleName roomId now a
            (baseIndex + i)) st).sent.count
            (localNoteOnMsg roomId st.localUser.id (baseIndex + interval) now) + 1 := by
        rw [keyDownStep_sent, List.count_append]
        simp
      have h3 := foldSteps_sent_count st.localUser baseFreq scaleName roomId now baseIndex l2
        (keyDownStep st.localUser baseFreq scaleName roomId now
          (l1.foldl (fun a i => keyDownStep st.localUser baseFreq scaleName roomId now a
            (baseIndex + i)) st) (baseIndex + interval))
        (localNoteOnMsg roomId st.localUser.id (baseIndex + interval) now)
      rw [hsplit, List.foldl_append, List.foldl_cons]
      omega

/-- Witness for C2: a Single-mode press of s from four held notes stays
within the cap, registers a Voice for degree 0 and emits a NOTE_ON. -/
theorem C2_witness :
    ((handleKeyDownNote "Single" 150 "pentatonic_minor" "R" 1000 stC2 "s").localUser.activeNotes.length
        ≤ MAX_POLYPHONY)
    ∧ ((regFind (handleKeyDownNote "Single" 150 "pentatonic_minor" "R" 1000 stC2 "s").engine.voices
          (voiceKey stC2.localUser.id ((0 : Int) + 0))).isSome = true
      ∧ 0 < (handleKeyDownNote "Single" 150 "pentatonic_minor" "R" 1000 stC2 "s").sent.count
          (localNoteOnMsg "R" stC2.localUser.id ((0 : Int) + 0) 1000)) := by
  have h := C2_polyphony_cap_with_unguarded_emission
  exact ⟨h.1 "Single" 150 "pentatonic_minor" "R" 1000 stC2 "s" (by decide),
         h.2.1 "Single" 150 "pentatonic_minor" "R" 1000 stC2 "s" 0 0 (by decide) (by decide)
           (by decide)⟩
